import Mathlib

/-!
Formal model of the process-memory subsystem and camera injection engine of
the PSP MOHH1 mouse injector (`mohh1-mouse-injector.py`).

Modelling conventions:
* Python floats are modelled by exact rational arithmetic (`ℚ`); the spec's
  own expected values (such as an exactly stored `1.483529806`, which is not
  a binary32 value) presuppose exact arithmetic, so IEEE rounding is outside
  the model.
* Machine addresses are `Int` (guest pointers can go negative after the
  rebase subtraction) and byte counts are `Nat`.
* Python exceptions are modelled with `Except`; every `ProcessMemory` method
  returns its outcome together with the list of raw-memory accesses it
  attempted and the object state after the call.
-/

namespace MouseInjector

/-- Line 37 of the source: the rounded full-turn constant. -/
def TAU : ℚ := 6.2831853

/-- Line 40: offset of the camera-base guest pointer. -/
def MOHH1_CAMBASE_PTR : Int := 0xD8361C

/-- Line 41: pitch offset inside the camera structure. -/
def MOHH1_CAMY : Int := 0x188

/-- Line 42: yaw offset inside the camera structure. -/
def MOHH1_CAMX : Int := 0x1A4

/-- Line 43: field-of-view offset inside the camera structure. -/
def MOHH1_FOV : Int := 0x1E8

/-- Lines 359-362: the new yaw before normalization,
`cam_x -= xmouse * look_sensitivity / scale * fov` with
`look_sensitivity = sensitivity / 20.0` and `scale = 20000.0`. -/
def inject_new_cam_x (cam_x xmouse sensitivity fov : ℚ) : ℚ :=
  cam_x - xmouse * (sensitivity / 20) / 20000 * fov

/-- Line 363: the new pitch before clamping; the subtracted term is negated
when `invertpitch` is set. -/
def inject_new_cam_y (cam_y ymouse sensitivity fov : ℚ) (invertpitch : Bool) : ℚ :=
  cam_y - (if !invertpitch then ymouse * (sensitivity / 20) / 20000 * fov
           else -ymouse * (sensitivity / 20) / 20000 * fov)

/-- Lines 367-368: the loop `while cam_x > TAU / 2: cam_x -= TAU`. -/
def wrapDown (x : ℚ) : ℚ :=
  if x > TAU / 2 then wrapDown (x - TAU) else x
termination_by (⌈(x - TAU / 2) / TAU⌉).toNat
decreasing_by
  have hT : (0 : ℚ) < TAU := by norm_num [TAU]
  have h1 : (0 : ℚ) < (x - TAU / 2) / TAU := div_pos (by linarith) hT
  have h2 : (0 : ℤ) < ⌈(x - TAU / 2) / TAU⌉ := Int.ceil_pos.mpr h1
  have h3 : (x - TAU - TAU / 2) / TAU = (x - TAU / 2) / TAU - 1 := by
    field_simp
    ring
  rw [h3, Int.ceil_sub_one]
  omega

/-- Lines 369-370: the loop `while cam_x < -TAU / 2: cam_x += TAU`. -/
def wrapUp (x : ℚ) : ℚ :=
  if x < -TAU / 2 then wrapUp (x + TAU) else x
termination_by (⌈(-TAU / 2 - x) / TAU⌉).toNat
decreasing_by
  have hT : (0 : ℚ) < TAU := by norm_num [TAU]
  have h1 : (0 : ℚ) < (-TAU / 2 - x) / TAU := div_pos (by linarith) hT
  have h2 : (0 : ℤ) < ⌈(-TAU / 2 - x) / TAU⌉ := Int.ceil_pos.mpr h1
  have h3 : (-TAU / 2 - (x + TAU)) / TAU = (-TAU / 2 - x) / TAU - 1 := by
    field_simp
    ring
  rw [h3, Int.ceil_sub_one]
  omega

/-- Lines 367-370: both wrap loops, in source order. -/
def normalize_yaw (x : ℚ) : ℚ := wrapUp (wrapDown x)

/-- Line 373: `cam_y = max(min(cam_y, 1.483529806), -1.483529806)`. -/
def clamp_pitch (cam_y : ℚ) : ℚ :=
  max (min cam_y 1.483529806) (-1.483529806)

/-- Basic facts about the wrap loops. -/
theorem wrapDown_le (x : ℚ) : wrapDown x ≤ TAU / 2 := by
  induction x using wrapDown.induct with
  | case1 x h ih => rw [wrapDown]; simpa [h] using ih
  | case2 x h => rw [wrapDown]; simpa [h] using not_lt.mp h

theorem wrapUp_ge (x : ℚ) : -TAU / 2 ≤ wrapUp x := by
  induction x using wrapUp.induct with
  | case1 x h ih => rw [wrapUp]; simpa [h] using ih
  | case2 x h => rw [wrapUp]; simpa [h] using not_lt.mp h

theorem wrapUp_le (x : ℚ) (hx : x ≤ TAU / 2) : wrapUp x ≤ TAU / 2 := by
  induction x using wrapUp.induct with
  | case1 x h ih =>
    rw [wrapUp]
    simp only [h, if_true]
    exact ih (by rw [show TAU / 2 = -TAU / 2 + TAU by ring]; linarith)
  | case2 x h => rw [wrapUp]; simpa [h] using hx

theorem wrapDown_sub_multiple (x : ℚ) : ∃ k : ℤ, wrapDown x = x - k * TAU := by
  induction x using wrapDown.induct with
  | case1 x h ih =>
    obtain ⟨k, hk⟩ := ih
    exact ⟨k + 1, by rw [wrapDown, if_pos h, hk]; push_cast; ring⟩
  | case2 x h => exact ⟨0, by rw [wrapDown, if_neg h]; ring⟩

theorem wrapUp_sub_multiple (x : ℚ) : ∃ k : ℤ, wrapUp x = x - k * TAU := by
  induction x using wrapUp.induct with
  | case1 x h ih =>
    obtain ⟨k, hk⟩ := ih
    exact ⟨k - 1, by rw [wrapUp, if_pos h, hk]; push_cast; ring⟩
  | case2 x h => exact ⟨0, by rw [wrapUp, if_neg h]; ring⟩

/-- Python float values as the wrap loops see them: finite values (their
exact rationals) plus the IEEE special values. Used to state the
termination claim, where float64 semantics — rounding for finite values,
and the special values — decide the answer. -/
inductive PyFloat where
  | fin (q : ℚ)
  | inf
  | ninf
  | nan
deriving DecidableEq

/-- Round a rational to the nearest integer, ties to even — the rounding
step of IEEE-754 round-to-nearest-even. -/
def rhe (q : ℚ) : ℤ :=
  if q - ⌊q⌋ < 1 / 2 then ⌊q⌋
  else if 1 / 2 < q - ⌊q⌋ then ⌊q⌋ + 1
  else if ⌊q⌋ % 2 = 0 then ⌊q⌋ else ⌊q⌋ + 1

/-- Round to nearest, ties to even, at binary64 precision: 53 significant
bits at the input's binary magnitude. Subnormal underflow and overflow to
infinity are outside the model; the wrap-loop arithmetic adds or subtracts
one constant of magnitude about 6.28 from a double, which can reach
neither. -/
def fl64 (x : ℚ) : ℚ :=
  if x = 0 then 0
  else
    ((rhe (x / (2 : ℚ) ^ (Int.log 2 |x| - 52)) : ℤ) : ℚ)
      * (2 : ℚ) ^ (Int.log 2 |x| - 52)

/-- The float64 value of the source's constant TAU = 6.2831853 (line 37),
as Python stores it. -/
def TAU64 : ℚ := fl64 TAU

/-- Subtraction on Python float values: IEEE special-value rules, and the
finite case rounded to binary64 precision. -/
def PyFloat.sub64 : PyFloat → PyFloat → PyFloat
  | .nan, _ => .nan
  | _, .nan => .nan
  | .inf, .inf => .nan
  | .inf, _ => .inf
  | .ninf, .ninf => .nan
  | .ninf, _ => .ninf
  | .fin _, .inf => .ninf
  | .fin _, .ninf => .inf
  | .fin a, .fin b => .fin (fl64 (a - b))

/-- Addition on Python float values, likewise rounded in the finite case. -/
def PyFloat.add64 : PyFloat → PyFloat → PyFloat
  | .nan, _ => .nan
  | _, .nan => .nan
  | .inf, .ninf => .nan
  | .inf, _ => .inf
  | .ninf, .inf => .nan
  | .ninf, _ => .ninf
  | .fin _, .inf => .inf
  | .fin _, .ninf => .ninf
  | .fin a, .fin b => .fin (fl64 (a + b))

/-- Strict order on Python float values; any comparison with NaN is false. -/
def PyFloat.lt : PyFloat → PyFloat → Bool
  | .nan, _ => false
  | _, .nan => false
  | .fin a, .fin b => decide (a < b)
  | .fin _, .inf => true
  | .fin _, .ninf => false
  | .inf, _ => false
  | .ninf, .ninf => false
  | .ninf, _ => true

/-- The loop of lines 367-368 run over float64 values with bounded fuel;
`none` means the loop had not exited after that many iterations. The guard
constant is `TAU64 / 2`, which binary64 represents exactly. -/
def wrapDownFuel64 : Nat → PyFloat → Option PyFloat
  | 0, x => if PyFloat.lt (.fin (TAU64 / 2)) x then none else some x
  | n + 1, x =>
    if PyFloat.lt (.fin (TAU64 / 2)) x then
      wrapDownFuel64 n (x.sub64 (.fin TAU64))
    else some x

/-- The loop of lines 369-370 run over float64 values with bounded fuel. -/
def wrapUpFuel64 : Nat → PyFloat → Option PyFloat
  | 0, x => if PyFloat.lt x (.fin (-TAU64 / 2)) then none else some x
  | n + 1, x =>
    if PyFloat.lt x (.fin (-TAU64 / 2)) then
      wrapUpFuel64 n (x.add64 (.fin TAU64))
    else some x

/-- Python exceptions that the modelled methods can raise or see. -/
inductive PyErr where
  /-- RuntimeError raised by `read_memory` and `write_memory` when the memory
  file was never opened (lines 164-165, 172-173). -/
  | runtimeError
  /-- OSError from the underlying raw-memory stream. -/
  | osError
  /-- Error raised by `struct.unpack` when the buffer is not 4 bytes long
  (line 298). -/
  | structError
  /-- OverflowError raised by `int.to_bytes` when the value does not fit
  (line 305). -/
  | overflowError
deriving DecidableEq

/-- One attempted access against the target process's raw memory. Float
stores are recorded at value level: the exact-arithmetic model does not
re-encode the written value into IEEE bytes. -/
inductive Access where
  | read (addr : Int) (size : Nat)
  | write (addr : Int) (data : List Nat)
  | writeFloat (addr : Int) (value : ℚ)
deriving DecidableEq

/-- Model of the raw-memory stream behind `/proc/pid/mem`: a read may return
any byte string (possibly shorter than requested, as at end of file) or fail;
a write may fail. Float stores go through their own value-level channel,
matching the trace convention of `Access`. -/
structure MemFile where
  readAt : Int → Nat → Except PyErr (List Nat)
  writeAt : Int → List Nat → Except PyErr Unit
  writeFloatAt : Int → ℚ → Except PyErr Unit

/-- State of a `ProcessMemory` object: the raw-memory stream (absent when no
process was found), whether the maps stream is open, and the established game
memory base (lines 140-145). The `perms` and `path` columns of a parsed maps
row are stored by the source only for debug printing, so region rows are
modelled by their start address and size. -/
structure ProcessMemory where
  mem_file : Option MemFile
  maps_file : Bool
  game_memory_base : Option Nat

/-- Outcome of one method call: its result or exception, the accesses it
attempted, and the object state after the call. -/
abbrev Res (α : Type) := Except PyErr α × List Access × ProcessMemory

/-- Truthiness of `self.game_memory_base` as Python evaluates it in the
`if not self.game_memory_base` guards: both `None` and `0` are falsy. -/
def ProcessMemory.base? (p : ProcessMemory) : Option Nat :=
  match p.game_memory_base with
  | none => none
  | some b => if b = 0 then none else some b

/-- `int.from_bytes(data, byteorder='little')`. -/
def fromLEBytes : List Nat → Nat
  | [] => 0
  | b :: rest => b + 256 * fromLEBytes rest

/-- `value.to_bytes(size, byteorder='little')` for values that fit. -/
def toLEBytes : Nat → Nat → List Nat
  | 0, _ => []
  | n + 1, v => v % 256 :: toLEBytes n (v / 256)

/-- Exact rational value of a little-endian IEEE-754 binary32 bit pattern,
as `struct.unpack('f', data)` produces it. Non-finite patterns (biased
exponent 255) have no rational value and are outside the exact-arithmetic
model; they are mapped to 0. -/
def decodeF32Rat (data : List Nat) : ℚ :=
  let u : Nat := fromLEBytes data
  let sign : ℚ := if u / 2 ^ 31 % 2 = 1 then -1 else 1
  let ex : Nat := u / 2 ^ 23 % 256
  let frac : Nat := u % 2 ^ 23
  if ex = 255 then 0
  else if ex = 0 then sign * (frac : ℚ) / 2 ^ 149
  else sign * ((2 ^ 23 + frac : ℕ) : ℚ) * 2 ^ ex / 2 ^ 150

/-- Lines 162-168: `read_memory`. Raises when the memory file is not open;
otherwise returns whatever the stream read yields — the source performs no
length check on the result. -/
def read_memory (p : ProcessMemory) (address : Int) (size : Nat) :
    Res (List Nat) :=
  match p.mem_file with
  | none => (.error .runtimeError, [], p)
  | some f =>
    match f.readAt address size with
    | .ok data => (.ok data, [.read address size], p)
    | .error e => (.error e, [.read address size], p)

/-- Lines 170-176: `write_memory`. -/
def write_memory (p : ProcessMemory) (address : Int) (data : List Nat) :
    Res Unit :=
  match p.mem_file with
  | none => (.error .runtimeError, [], p)
  | some f =>
    match f.writeAt address data with
    | .ok _ => (.ok (), [.write address data], p)
    | .error e => (.error e, [.write address data], p)

/-- Lines 178-181: `read_int`, a little-endian decode of `read_memory`. -/
def read_int (p : ProcessMemory) (address : Int) (size : Nat) : Res Nat :=
  match read_memory p address size with
  | (.ok data, t, p') => (.ok (fromLEBytes data), t, p')
  | (.error e, t, p') => (.error e, t, p')

/-- Lines 277-282: `read_uint32`; returns 0 without touching memory while the
game memory base is not established (the reported error message is a print,
not an exception). -/
def read_uint32 (p : ProcessMemory) (address : Int) : Res Nat :=
  match p.base? with
  | none => (.ok 0, [], p)
  | some b => read_int p (b + address) 4

/-- Lines 284-290: `read_uint16`. -/
def read_uint16 (p : ProcessMemory) (address : Int) : Res Nat :=
  match p.base? with
  | none => (.ok 0, [], p)
  | some b =>
    match read_memory p (b + address) 2 with
    | (.ok data, t, p') => (.ok (fromLEBytes data), t, p')
    | (.error e, t, p') => (.error e, t, p')

/-- Lines 292-298: `read_float`; `struct.unpack('f', data)` requires exactly
4 bytes. -/
def read_float (p : ProcessMemory) (address : Int) : Res ℚ :=
  match p.base? with
  | none => (.ok 0, [], p)
  | some b =>
    match read_memory p (b + address) 4 with
    | (.ok data, t, p') =>
      if data.length = 4 then (.ok (decodeF32Rat data), t, p')
      else (.error .structError, t, p')
    | (.error e, t, p') => (.error e, t, p')

/-- Lines 300-306: `write_uint16`; `value.to_bytes(2, 'little')` overflows
for values of 2^16 and above, before any memory access. -/
def write_uint16 (p : ProcessMemory) (address : Int) (value : Nat) :
    Res Unit :=
  match p.base? with
  | none => (.ok (), [], p)
  | some b =>
    if value < 65536 then write_memory p (b + address) (toLEBytes 2 value)
    else (.error .overflowError, [], p)

/-- Lines 308-314: `write_float`, recorded at value level. -/
def write_float (p : ProcessMemory) (address : Int) (value : ℚ) : Res Unit :=
  match p.base? with
  | none => (.ok (), [], p)
  | some b =>
    match p.mem_file with
    | none => (.error .runtimeError, [], p)
    | some f =>
      match f.writeFloatAt (b + address) value with
      | .ok _ => (.ok (), [.writeFloat (b + address) value], p)
      | .error e => (.error e, [.writeFloat (b + address) value], p)

/-- Lines 316-325: `read_pointer`; a nonzero raw value is rebased by
`0x8000000`, a zero raw value maps to 0. -/
def read_pointer (p : ProcessMemory) (address : Int) : Res Int :=
  match p.base? with
  | none => (.ok 0, [], p)
  | some _ =>
    match read_uint32 p address with
    | (.ok val, t, p') =>
      if val ≠ 0 then (.ok ((val : Int) - 0x8000000), t, p')
      else (.ok 0, t, p')
    | (.error e, t, p') => (.error e, t, p')

/-- Lines 334-377: `psp_mohh1_inject`, one tick of the camera injection
engine. Returns silently while the base is not established or the camera
base pointer is null, aborts after the zero-delta check, and otherwise
writes the normalized yaw and the clamped pitch. -/
def psp_mohh1_inject (p : ProcessMemory) (xmouse ymouse sensitivity : ℚ)
    (invertpitch : Bool) : Res Unit :=
  match p.base? with
  | none => (.ok (), [], p)
  | some _ =>
    match read_pointer p MOHH1_CAMBASE_PTR with
    | (.error e, t1, p1) => (.error e, t1, p1)
    | (.ok cam_base, t1, p1) =>
      if cam_base = 0 then (.ok (), t1, p1)
      else
        match read_float p1 (cam_base + MOHH1_FOV) with
        | (.error e, t2, p2) => (.error e, t1 ++ t2, p2)
        | (.ok fov, t2, p2) =>
          if xmouse = 0 ∧ ymouse = 0 then (.ok (), t1 ++ t2, p2)
          else
            match read_float p2 (cam_base + MOHH1_CAMX) with
            | (.error e, t3, p3) => (.error e, t1 ++ t2 ++ t3, p3)
            | (.ok cam_x, t3, p3) =>
              match read_float p3 (cam_base + MOHH1_CAMY) with
              | (.error e, t4, p4) => (.error e, t1 ++ t2 ++ t3 ++ t4, p4)
              | (.ok cam_y, t4, p4) =>
                match write_float p4 (cam_base + MOHH1_CAMX)
                    (normalize_yaw
                      (inject_new_cam_x cam_x xmouse sensitivity fov)) with
                | (.error e, t5, p5) => (.error e, t1 ++ t2 ++ t3 ++ t4 ++ t5, p5)
                | (.ok _, t5, p5) =>
                  match write_float p5 (cam_base + MOHH1_CAMY)
                      (clamp_pitch
                        (inject_new_cam_y cam_y ymouse sensitivity fov
                          invertpitch)) with
                  | (r6, t6, p6) => (r6, t1 ++ t2 ++ t3 ++ t4 ++ t5 ++ t6, p6)

/-- One parsed row of the mapping table (lines 216-236), reduced to the two
fields the scan decision reads. -/
structure Region where
  start : Nat
  size : Nat
deriving DecidableEq

/-- Lines 203-206 and 240-243: the size filter — at least `MIN_SIZE` (1 MiB)
and within `SIZE_TOLERANCE` (0.1) of `TARGET_SIZE` (32 MiB), in exact
rational arithmetic. -/
def sizeOk (size : Nat) : Bool :=
  decide (size ≥ 1048576) &&
    decide (|((size : ℚ) - 33554432)| / 33554432 ≤ 0.1)

/-- Lines 250-257: the content probe on the bytes read at a candidate
region's start; `false` covers rejection, and also the IndexError path for
short data, which the handler at line 260 turns into a continue. -/
def acceptBytes (data : List Nat) : Bool :=
  if data.any (fun b => b != 0) then
    match data with
    | b0 :: b1 :: _ => b0 != 0 && b1 != 0
    | _ => false
  else false

/-- Lines 239-262: the second pass over the parsed regions; the first
candidate that passes the size filter, whose probe read succeeds and whose
bytes are accepted wins, and scanning stops there. A failed read is caught
and the scan continues with the next region. -/
def scanRegions (p : ProcessMemory) : List Region → Option Nat × List Access
  | [] => (none, [])
  | r :: rest =>
    if sizeOk r.size then
      match read_memory p (r.start : Int) 4 with
      | (.ok data, t, _) =>
        if acceptBytes data then (some r.start, t)
        else
          let (res, t') := scanRegions p rest
          (res, t ++ t')
      | (.error _, t, _) =>
        let (res, t') := scanRegions p rest
        (res, t ++ t')
    else scanRegions p rest

/-- Lines 198-265: `find_game_memory` over a parsed mapping table. Returns
`none` when the maps stream is not open or no region qualifies; assigns
`game_memory_base` only at the acceptance on line 258. -/
def find_game_memory (p : ProcessMemory) (regions : List Region) :
    Res (Option Nat) :=
  if p.maps_file then
    match scanRegions p regions with
    | (some a, t) => (.ok (some a), t, { p with game_memory_base := some a })
    | (none, t) => (.ok none, t, p)
  else (.ok none, [], p)

/-- Candidate predicate phrased from the claim: size at least 1 MiB and
within 10% of 32 MiB, the 4 probed bytes not all zero, and the first two
probed bytes both nonzero (a candidate whose probe read fails does not
qualify). Stated independently of the source's scan loop, to be compared
with it. -/
def specQualifies (p : ProcessMemory) (r : Region) : Bool :=
  (decide (1048576 ≤ r.size) &&
      decide (|((r.size : ℚ) - 33554432)| ≤ 33554432 / 10)) &&
    match (read_memory p (r.start : Int) 4).fst with
    | .ok data =>
      (!(data.all fun b => b == 0) && data.headD 0 != 0) &&
        (data.drop 1).headD 0 != 0
    | .error _ => false

/-- The store accesses of a trace. -/
def writesOf (t : List Access) : List Access :=
  t.filter fun a =>
    match a with
    | .read _ _ => false
    | .write _ _ => true
    | .writeFloat _ _ => true

/-- Trace helper: filtering distributes over concatenation. -/
theorem writesOf_append (s t : List Access) :
    writesOf (s ++ t) = writesOf s ++ writesOf t :=
  List.filter_append s t

/-- None of the methods below ever reassigns the object state; each lemma
records that the returned state is the input state. -/
theorem read_memory_state (p : ProcessMemory) (a : Int) (n : Nat) :
    (read_memory p a n).2.2 = p := by
  unfold read_memory
  split
  · rfl
  · split <;> rfl

theorem write_memory_state (p : ProcessMemory) (a : Int) (d : List Nat) :
    (write_memory p a d).2.2 = p := by
  unfold write_memory
  split
  · rfl
  · split <;> rfl

theorem read_int_state (p : ProcessMemory) (a : Int) (n : Nat) :
    (read_int p a n).2.2 = p := by
  unfold read_int
  split <;> (rename_i heq
             have h := read_memory_state p a n
             rw [heq] at h
             simpa using h)

theorem read_uint32_state (p : ProcessMemory) (a : Int) :
    (read_uint32 p a).2.2 = p := by
  unfold read_uint32
  split
  · rfl
  · exact read_int_state p _ 4

theorem read_uint16_state (p : ProcessMemory) (a : Int) :
    (read_uint16 p a).2.2 = p := by
  unfold read_uint16
  split
  · rfl
  · split <;> (rename_i heq
               exact (congrArg (fun r => r.2.2) heq).symm.trans
                 (read_memory_state _ _ _))

theorem read_float_state (p : ProcessMemory) (a : Int) :
    (read_float p a).2.2 = p := by
  unfold read_float
  split
  · rfl
  · split <;> (rename_i heq
               first
               | (split <;> exact (congrArg (fun r => r.2.2) heq).symm.trans
                   (read_memory_state _ _ _))
               | exact (congrArg (fun r => r.2.2) heq).symm.trans
                   (read_memory_state _ _ _))

theorem write_uint16_state (p : ProcessMemory) (a : Int) (v : Nat) :
    (write_uint16 p a v).2.2 = p := by
  unfold write_uint16
  split
  · rfl
  · split
    · exact write_memory_state p _ _
    · rfl

theorem write_float_state (p : ProcessMemory) (a : Int) (x : ℚ) :
    (write_float p a x).2.2 = p := by
  unfold write_float
  split
  · rfl
  · split
    · rfl
    · split <;> rfl

theorem read_pointer_state (p : ProcessMemory) (a : Int) :
    (read_pointer p a).2.2 = p := by
  unfold read_pointer
  split
  · rfl
  · split <;> (rename_i heq
               have h := read_uint32_state p a
               rw [heq] at h
               first
               | (split <;> simpa using h)
               | simpa using h)

/-- None of the read methods attempts a store. -/
theorem read_memory_writes (p : ProcessMemory) (a : Int) (n : Nat) :
    writesOf (read_memory p a n).2.1 = [] := by
  unfold read_memory
  split
  · rfl
  · split <;> rfl

theorem read_int_writes (p : ProcessMemory) (a : Int) (n : Nat) :
    writesOf (read_int p a n).2.1 = [] := by
  unfold read_int
  split <;> (rename_i heq
             have h := read_memory_writes p a n
             rw [heq] at h
             simpa using h)

theorem read_uint32_writes (p : ProcessMemory) (a : Int) :
    writesOf (read_uint32 p a).2.1 = [] := by
  unfold read_uint32
  split
  · rfl
  · exact read_int_writes p _ 4

theorem read_float_writes (p : ProcessMemory) (a : Int) :
    writesOf (read_float p a).2.1 = [] := by
  unfold read_float
  split
  · rfl
  · split <;> (rename_i heq
               first
               | (split <;> exact (congrArg (fun r => writesOf r.2.1) heq).symm.trans
                   (read_memory_writes _ _ _))
               | exact (congrArg (fun r => writesOf r.2.1) heq).symm.trans
                   (read_memory_writes _ _ _))

theorem read_pointer_writes (p : ProcessMemory) (a : Int) :
    writesOf (read_pointer p a).2.1 = [] := by
  unfold read_pointer
  split
  · rfl
  · split <;> (rename_i heq
               have h := read_uint32_writes p a
               rw [heq] at h
               first
               | (split <;> simpa using h)
               | simpa using h)

theorem psp_mohh1_inject_state (p : ProcessMemory) (dx dy s : ℚ)
    (inv : Bool) : (psp_mohh1_inject p dx dy s inv).2.2 = p := by
  unfold psp_mohh1_inject
  split
  · rfl
  · split
    · rename_i e t1 p1 heq1
      exact (congrArg (fun r => r.2.2) heq1).symm.trans (read_pointer_state _ _)
    · rename_i cam_base t1 p1 heq1
      have h1 : p1 = p :=
        (congrArg (fun r => r.2.2) heq1).symm.trans (read_pointer_state _ _)
      split
      · exact h1
      · split
        · rename_i e t2 p2 heq2
          have h2 : p2 = p1 :=
            (congrArg (fun r => r.2.2) heq2).symm.trans (read_float_state _ _)
          exact h2.trans h1
        · rename_i fov t2 p2 heq2
          have h2 : p2 = p1 :=
            (congrArg (fun r => r.2.2) heq2).symm.trans (read_float_state _ _)
          split
          · exact h2.trans h1
          · split
            · rename_i e t3 p3 heq3
              have h3 : p3 = p2 :=
                (congrArg (fun r => r.2.2) heq3).symm.trans (read_float_state _ _)
              exact (h3.trans h2).trans h1
            · rename_i cam_x t3 p3 heq3
              have h3 : p3 = p2 :=
                (congrArg (fun r => r.2.2) heq3).symm.trans (read_float_state _ _)
              split
              · rename_i e t4 p4 heq4
                have h4 : p4 = p3 :=
                  (congrArg (fun r => r.2.2) heq4).symm.trans
                    (read_float_state _ _)
                exact ((h4.trans h3).trans h2).trans h1
              · rename_i cam_y t4 p4 heq4
                have h4 : p4 = p3 :=
                  (congrArg (fun r => r.2.2) heq4).symm.trans
                    (read_float_state _ _)
                split
                · rename_i e t5 p5 heq5
                  have h5 : p5 = p4 :=
                    (congrArg (fun r => r.2.2) heq5).symm.trans
                      (write_float_state _ _ _)
                  exact (((h5.trans h4).trans h3).trans h2).trans h1
                · rename_i u t5 p5 heq5
                  have h5 : p5 = p4 :=
                    (congrArg (fun r => r.2.2) heq5).symm.trans
                      (write_float_state _ _ _)
                  rcases heq6 : write_float p5
                      (cam_base + MOHH1_CAMY)
                      (clamp_pitch (inject_new_cam_y cam_y dy s fov inv))
                    with ⟨r6, t6, p6⟩
                  have h6 : p6 = p5 :=
                    (congrArg (fun r => r.2.2) heq6).symm.trans
                      (write_float_state _ _ _)
                  exact ((((h6.trans h5).trans h4).trans h3).trans h2).trans h1

/-- C1: one invocation of the injection engine computes
new yaw = yaw - (dx * (sensitivity / 20) / 20000 * fov) and
new pitch = pitch - (dy * (sensitivity / 20) / 20000 * fov) when
invert_pitch is false and pitch + that term when invert_pitch is true;
in particular with sensitivity 50, fov 75, dx 100, yaw 0 the new yaw before
normalization is exactly -0.9375. -/
theorem C1_injection_formulas :
    (∀ yaw pitch dx dy sensitivity fov : ℚ,
      inject_new_cam_x yaw dx sensitivity fov
        = yaw - dx * (sensitivity / 20) / 20000 * fov
      ∧ inject_new_cam_y pitch dy sensitivity fov false
        = pitch - dy * (sensitivity / 20) / 20000 * fov
      ∧ inject_new_cam_y pitch dy sensitivity fov true
        = pitch + dy * (sensitivity / 20) / 20000 * fov)
    ∧ inject_new_cam_x 0 100 50 75 = -0.9375 := by
  refine ⟨fun yaw pitch dx dy s fov => ⟨rfl, rfl, ?_⟩,
    by norm_num [inject_new_cam_x]⟩
  unfold inject_new_cam_y
  norm_num
  ring

/-- C2: for every input yaw the normalization loops produce a result inside
the interval from -pi exclusive to pi inclusive, and the result differs from
the input by an integer multiple of the full-turn constant TAU. -/
theorem C2_normalize_range (x : ℚ) :
    (-Real.pi < ((normalize_yaw x : ℚ) : ℝ)
      ∧ ((normalize_yaw x : ℚ) : ℝ) ≤ Real.pi)
    ∧ ∃ n : ℤ, normalize_yaw x = x - n * TAU := by
  have hq1 : -TAU / 2 ≤ normalize_yaw x := wrapUp_ge _
  have hq2 : normalize_yaw x ≤ TAU / 2 := wrapUp_le _ (wrapDown_le x)
  have hpi : (3.14159265 : ℝ) < Real.pi :=
    lt_trans (by norm_num) Real.pi_gt_d20
  have hr1 : ((-TAU / 2 : ℚ) : ℝ) ≤ ((normalize_yaw x : ℚ) : ℝ) := by
    exact_mod_cast hq1
  have hr2 : ((normalize_yaw x : ℚ) : ℝ) ≤ ((TAU / 2 : ℚ) : ℝ) := by
    exact_mod_cast hq2
  have he : ((TAU / 2 : ℚ) : ℝ) = 3.14159265 := by
    norm_num [TAU]
  refine ⟨⟨?_, ?_⟩, ?_⟩
  · have : ((-TAU / 2 : ℚ) : ℝ) = -3.14159265 := by norm_num [TAU]
    rw [this] at hr1
    linarith
  · rw [he] at hr2
    linarith
  · obtain ⟨k1, h1⟩ := wrapDown_sub_multiple x
    obtain ⟨k2, h2⟩ := wrapUp_sub_multiple (wrapDown x)
    refine ⟨k1 + k2, ?_⟩
    unfold normalize_yaw
    rw [h2, h1]
    push_cast
    ring

/-- C3: every clamped pitch lies in the closed interval between
-1.483529806 and 1.483529806, and a pre-clamp pitch of 2 is stored as
exactly 1.483529806. -/
theorem C3_pitch_clamp :
    (∀ y : ℚ, -1.483529806 ≤ clamp_pitch y ∧ clamp_pitch y ≤ 1.483529806)
    ∧ clamp_pitch 2 = 1.483529806 := by
  refine ⟨fun y => ⟨le_max_right _ _, ?_⟩, by norm_num [clamp_pitch]⟩
  exact max_le (min_le_right _ _) (by norm_num)

/-- Rounding to the nearest integer moves a value by at most one half. -/
theorem rhe_sub_abs_le (q : ℚ) : |((rhe q : ℤ) : ℚ) - q| ≤ 1 / 2 := by
  have h0 : ((⌊q⌋ : ℤ) : ℚ) ≤ q := Int.floor_le q
  have h1 : q < ⌊q⌋ + 1 := Int.lt_floor_add_one q
  unfold rhe
  split_ifs with hf1 hf2 hf3 <;>
    (rw [abs_le]; push_cast; constructor <;> linarith)

/-- A value in the half-open interval from k - 1/2 (exclusive) to k rounds
to k. -/
theorem rhe_eq_of (q : ℚ) (k : ℤ) (h1 : (k : ℚ) - 1 / 2 < q)
    (h2 : q ≤ k) : rhe q = k := by
  rcases eq_or_lt_of_le h2 with he | hlt
  · rw [he]
    unfold rhe
    rw [Int.floor_intCast]
    rw [if_pos (by norm_num)]
  · have hfl : ⌊q⌋ = k - 1 := by
      rw [Int.floor_eq_iff]
      constructor
      · push_cast
        linarith
      · push_cast
        linarith
    unfold rhe
    rw [hfl]
    rw [if_neg (by push_cast; linarith), if_pos (by push_cast; linarith)]
    omega

/-- Rounding at binary64 precision moves a value by at most half the
spacing at its binary magnitude. -/
theorem fl64_error (x : ℚ) :
    |fl64 x - x| ≤ (2 : ℚ) ^ (Int.log 2 |x| - 53) := by
  unfold fl64
  split_ifs with hx
  · rw [hx]
    simpa using (zpow_pos (by norm_num : (0 : ℚ) < 2) _).le
  · have hs : (0 : ℚ) < (2 : ℚ) ^ (Int.log 2 |x| - 52) :=
      zpow_pos (by norm_num) _
    have h := rhe_sub_abs_le (x / (2 : ℚ) ^ (Int.log 2 |x| - 52))
    have hrw : ((rhe (x / (2 : ℚ) ^ (Int.log 2 |x| - 52)) : ℤ) : ℚ)
          * (2 : ℚ) ^ (Int.log 2 |x| - 52) - x
        = (((rhe (x / (2 : ℚ) ^ (Int.log 2 |x| - 52)) : ℤ) : ℚ)
            - x / (2 : ℚ) ^ (Int.log 2 |x| - 52))
          * (2 : ℚ) ^ (Int.log 2 |x| - 52) := by
      field_simp
    rw [hrw, abs_mul, abs_of_pos hs]
    calc |((rhe (x / (2 : ℚ) ^ (Int.log 2 |x| - 52)) : ℤ) : ℚ)
          - x / (2 : ℚ) ^ (Int.log 2 |x| - 52)|
          * (2 : ℚ) ^ (Int.log 2 |x| - 52)
        ≤ (1 / 2) * (2 : ℚ) ^ (Int.log 2 |x| - 52) :=
          mul_le_mul_of_nonneg_right h hs.le
      _ = (2 : ℚ) ^ (Int.log 2 |x| - 53) := by
          rw [show Int.log 2 |x| - 52 = (Int.log 2 |x| - 53) + 1 by omega,
            zpow_add_one₀ (by norm_num : (2 : ℚ) ≠ 0)]
          ring

/-- A value below 2 to the 54 in magnitude has binary magnitude at most
53, so binary64 rounding moves it by at most one. -/
theorem fl64_error_le_one (x : ℚ) (hx : |x| < (2 : ℚ) ^ (54 : ℤ)) :
    |fl64 x - x| ≤ 1 := by
  refine (fl64_error x).trans ?_
  have hlog : Int.log 2 |x| ≤ 53 := by
    rcases eq_or_ne x 0 with h | h
    · simp [h]
    · have h0 : 0 < |x| := abs_pos.mpr h
      have hx' : |x| < ((2 : ℕ) : ℚ) ^ (54 : ℤ) := by exact_mod_cast hx
      have hlt := (Int.lt_zpow_iff_log_lt (by norm_num : (1 : ℕ) < 2) h0).mp hx'
      omega
  calc (2 : ℚ) ^ (Int.log 2 |x| - 53) ≤ (2 : ℚ) ^ (0 : ℤ) :=
        zpow_le_zpow_right₀ (by norm_num) (by omega)
    _ = 1 := zpow_zero 2

/-- The float64 TAU constant lies between 6 and 7. -/
theorem TAU64_bounds : 6 ≤ TAU64 ∧ TAU64 ≤ 7 := by
  have hT : TAU = 6.2831853 := rfl
  have habs : |TAU| = TAU := abs_of_pos (by rw [hT]; norm_num)
  have hlog : Int.log 2 |TAU| = 2 := by
    rw [habs]
    have h0 : (0 : ℚ) < TAU := by rw [hT]; norm_num
    have hle : ((2 : ℕ) : ℚ) ^ (2 : ℤ) ≤ TAU := by rw [hT]; norm_num
    have hlt : TAU < ((2 : ℕ) : ℚ) ^ (3 : ℤ) := by rw [hT]; norm_num
    have ha := (Int.zpow_le_iff_le_log (by norm_num : (1 : ℕ) < 2) h0).mp hle
    have hb := (Int.lt_zpow_iff_log_lt (by norm_num : (1 : ℕ) < 2) h0).mp hlt
    omega
  have herr := fl64_error TAU
  rw [hlog] at herr
  have hsmall : (2 : ℚ) ^ (2 - 53 : ℤ) ≤ 1 / 2 := by
    calc (2 : ℚ) ^ (2 - 53 : ℤ) ≤ (2 : ℚ) ^ (-1 : ℤ) :=
          zpow_le_zpow_right₀ (by norm_num) (by omega)
      _ = 1 / 2 := by norm_num
  have habs' := abs_le.mp herr
  unfold TAU64
  constructor
  · have := habs'.1
    rw [hT] at *
    linarith
  · have := habs'.2
    rw [hT] at *
    linarith

/-- Absorption: at 1e17 the float64 spacing is 16, so subtracting the TAU
constant rounds back to 1e17 itself. -/
theorem fl64_absorb_1e17 : fl64 ((10 : ℚ) ^ 17 - TAU64) = 10 ^ 17 := by
  obtain ⟨hT1, hT2⟩ := TAU64_bounds
  have h10 : (10 : ℚ) ^ 17 = 100000000000000000 := by norm_num
  have hv1 : (10 : ℚ) ^ 17 - 7 ≤ 10 ^ 17 - TAU64 := by linarith
  have hv2 : (10 : ℚ) ^ 17 - TAU64 ≤ 10 ^ 17 - 6 := by linarith
  have hvpos : (0 : ℚ) < 10 ^ 17 - TAU64 := by
    rw [h10] at hv1 ⊢
    linarith
  have habs : |(10 : ℚ) ^ 17 - TAU64| = 10 ^ 17 - TAU64 := abs_of_pos hvpos
  have hlog : Int.log 2 |(10 : ℚ) ^ 17 - TAU64| = 56 := by
    rw [habs]
    have h56 : ((2 : ℕ) : ℚ) ^ (56 : ℤ) = 72057594037927936 := by norm_num
    have h57 : ((2 : ℕ) : ℚ) ^ (57 : ℤ) = 144115188075855872 := by norm_num
    have hle : ((2 : ℕ) : ℚ) ^ (56 : ℤ) ≤ (10 : ℚ) ^ 17 - TAU64 := by
      rw [h56, h10]
      linarith
    have hlt : (10 : ℚ) ^ 17 - TAU64 < ((2 : ℕ) : ℚ) ^ (57 : ℤ) := by
      rw [h57, h10]
      linarith
    have ha := (Int.zpow_le_iff_le_log (by norm_num : (1 : ℕ) < 2) hvpos).mp hle
    have hb := (Int.lt_zpow_iff_log_lt (by norm_num : (1 : ℕ) < 2) hvpos).mp hlt
    omega
  unfold fl64
  rw [if_neg (ne_of_gt hvpos), hlog]
  have hzp : (2 : ℚ) ^ (56 - 52 : ℤ) = 16 := by norm_num
  rw [hzp]
  have hk : rhe (((10 : ℚ) ^ 17 - TAU64) / 16) = 6250000000000000 := by
    apply rhe_eq_of
    · rw [h10] at hv1 ⊢
      push_cast
      linarith
    · rw [h10] at hv2 ⊢
      push_cast
      linarith
  rw [hk]
  rw [h10]
  norm_num

/-- One loop iteration at 1e17 makes no progress. -/
theorem sub64_absorb_1e17 :
    PyFloat.sub64 (.fin ((10 : ℚ) ^ 17)) (.fin TAU64)
      = .fin ((10 : ℚ) ^ 17) := by
  show PyFloat.fin (fl64 ((10 : ℚ) ^ 17 - TAU64)) = _
  rw [fl64_absorb_1e17]

/-- The loop guard holds at 1e17. -/
theorem guard_1e17 :
    PyFloat.lt (.fin (TAU64 / 2)) (.fin ((10 : ℚ) ^ 17)) = true := by
  obtain ⟨hT1, hT2⟩ := TAU64_bounds
  have h10 : (10 : ℚ) ^ 17 = 100000000000000000 := by norm_num
  simp only [PyFloat.lt, decide_eq_true_eq]
  rw [h10]
  linarith

/-- The subtract loop never exits on the finite input 1e17. -/
theorem wrapDown64_stuck_1e17 :
    ∀ n, wrapDownFuel64 n (.fin ((10 : ℚ) ^ 17)) = none := by
  intro n
  induction n with
  | zero => simp [wrapDownFuel64, guard_1e17]
  | succ n ih => simp [wrapDownFuel64, guard_1e17, sub64_absorb_1e17, ih]

/-- Within the safe magnitude the rounded subtract loop terminates: the
ceiling measure bounds the fuel it needs. -/
theorem wrapDown64_term (N : ℕ) :
    ∀ q : ℚ, -((2 : ℚ) ^ 53) ≤ q → q ≤ 2 ^ 53 →
      (⌈(q - TAU64 / 2) / 5⌉).toNat ≤ N →
      ∃ y, wrapDownFuel64 N (.fin q) = some y := by
  induction N with
  | zero =>
    intro q h1 h2 hm
    have hq : ¬ TAU64 / 2 < q := by
      intro hc
      have hpos : 0 < (q - TAU64 / 2) / 5 :=
        div_pos (by linarith) (by norm_num)
      have := Int.ceil_pos.mpr hpos
      omega
    exact ⟨.fin q, by simp [wrapDownFuel64, PyFloat.lt, hq]⟩
  | succ N ih =>
    intro q h1 h2 hm
    by_cases hq : TAU64 / 2 < q
    · obtain ⟨hT1, hT2⟩ := TAU64_bounds
      have hp53 : (8 : ℚ) ≤ 2 ^ 53 := by norm_num
      have hp54 : (2 : ℚ) ^ (54 : ℤ) = 2 ^ 53 * 2 := by
        rw [show (54 : ℤ) = ((54 : ℕ) : ℤ) from rfl, zpow_natCast]
        ring
      have herr' : |fl64 (q - TAU64) - (q - TAU64)| ≤ 1 := by
        apply fl64_error_le_one
        rw [abs_lt, hp54]
        constructor <;> linarith
      have habs' := abs_le.mp herr'
      have hyub : fl64 (q - TAU64) ≤ q - 5 := by linarith
      have hylb : -5 ≤ fl64 (q - TAU64) := by linarith
      have hm' : (⌈(fl64 (q - TAU64) - TAU64 / 2) / 5⌉).toNat ≤ N := by
        have hstep : (fl64 (q - TAU64) - TAU64 / 2) / 5
            ≤ (q - TAU64 / 2) / 5 - 1 := by linarith
        have hc1 := Int.ceil_mono hstep
        rw [Int.ceil_sub_one] at hc1
        have hpos : 0 < ⌈(q - TAU64 / 2) / 5⌉ :=
          Int.ceil_pos.mpr (div_pos (by linarith) (by norm_num))
        omega
      obtain ⟨y, hy⟩ := ih (fl64 (q - TAU64)) (by linarith) (by linarith) hm'
      refine ⟨y, ?_⟩
      have hguard : PyFloat.lt (.fin (TAU64 / 2)) (.fin q) = true := by
        simpa [PyFloat.lt] using hq
      calc wrapDownFuel64 (N + 1) (.fin q)
          = wrapDownFuel64 N ((PyFloat.fin q).sub64 (.fin TAU64)) := by
            simp [wrapDownFuel64, hguard]
        _ = some y := hy
    · exact ⟨.fin q, by simp [wrapDownFuel64, PyFloat.lt, hq]⟩

/-- Within the safe magnitude the rounded add loop terminates. -/
theorem wrapUp64_term (N : ℕ) :
    ∀ q : ℚ, -((2 : ℚ) ^ 53) ≤ q → q ≤ 2 ^ 53 →
      (⌈(-TAU64 / 2 - q) / 5⌉).toNat ≤ N →
      ∃ y, wrapUpFuel64 N (.fin q) = some y := by
  induction N with
  | zero =>
    intro q h1 h2 hm
    have hq : ¬ q < -TAU64 / 2 := by
      intro hc
      have hpos : 0 < (-TAU64 / 2 - q) / 5 :=
        div_pos (by linarith) (by norm_num)
      have := Int.ceil_pos.mpr hpos
      omega
    exact ⟨.fin q, by simp [wrapUpFuel64, PyFloat.lt, hq]⟩
  | succ N ih =>
    intro q h1 h2 hm
    by_cases hq : q < -TAU64 / 2
    · obtain ⟨hT1, hT2⟩ := TAU64_bounds
      have hp53 : (8 : ℚ) ≤ 2 ^ 53 := by norm_num
      have hp54 : (2 : ℚ) ^ (54 : ℤ) = 2 ^ 53 * 2 := by
        rw [show (54 : ℤ) = ((54 : ℕ) : ℤ) from rfl, zpow_natCast]
        ring
      have herr' : |fl64 (q + TAU64) - (q + TAU64)| ≤ 1 := by
        apply fl64_error_le_one
        rw [abs_lt, hp54]
        constructor <;> linarith
      have habs' := abs_le.mp herr'
      have hylb : q + 5 ≤ fl64 (q + TAU64) := by linarith
      have hyub : fl64 (q + TAU64) ≤ 5 := by linarith
      have hm' : (⌈(-TAU64 / 2 - fl64 (q + TAU64)) / 5⌉).toNat ≤ N := by
        have hstep : (-TAU64 / 2 - fl64 (q + TAU64)) / 5
            ≤ (-TAU64 / 2 - q) / 5 - 1 := by linarith
        have hc1 := Int.ceil_mono hstep
        rw [Int.ceil_sub_one] at hc1
        have hpos : 0 < ⌈(-TAU64 / 2 - q) / 5⌉ :=
          Int.ceil_pos.mpr (div_pos (by linarith) (by norm_num))
        omega
      obtain ⟨y, hy⟩ := ih (fl64 (q + TAU64)) (by linarith) (by linarith) hm'
      refine ⟨y, ?_⟩
      have hguard : PyFloat.lt (.fin q) (.fin (-TAU64 / 2)) = true := by
        simpa [PyFloat.lt] using hq
      calc wrapUpFuel64 (N + 1) (.fin q)
          = wrapUpFuel64 N ((PyFloat.fin q).add64 (.fin TAU64)) := by
            simp [wrapUpFuel64, hguard]
        _ = some y := hy
    · exact ⟨.fin q, by simp [wrapUpFuel64, PyFloat.lt, hq]⟩

/-- C10 counterexample: yaw = 1e17 is a finite float64 value on which the
subtract loop never terminates — the guard holds, yet the float64
subtraction of TAU is absorbed by rounding (the spacing at 1e17 is 16), so
an iteration leaves the value unchanged and the loop is still running
after any number of iterations. -/
theorem C10_finite_nontermination_counterexample :
    PyFloat.sub64 (.fin ((10 : ℚ) ^ 17)) (.fin TAU64)
        = .fin ((10 : ℚ) ^ 17)
    ∧ PyFloat.lt (.fin (TAU64 / 2)) (.fin ((10 : ℚ) ^ 17)) = true
    ∧ wrapDownFuel64 8 (.fin ((10 : ℚ) ^ 17)) = none :=
  ⟨sub64_absorb_1e17, guard_1e17, wrapDown64_stuck_1e17 8⟩

/-- C10, amended: over float64 values the yaw-wrap loops terminate for
every finite input of magnitude at most 2 to the 53, but finite-input
termination fails in general — at yaw = 1e17 rounding absorbs the TAU
update and the subtract loop never exits; the subtract loop also never
terminates on positive infinity and the add loop never on negative
infinity, while NaN, a non-finite input, exits both loops immediately. -/
theorem C10_wrap_termination_float64 :
    (∀ q : ℚ, -((2 : ℚ) ^ 53) ≤ q → q ≤ 2 ^ 53 →
      ∃ n y, wrapDownFuel64 n (.fin q) = some y)
    ∧ (∀ q : ℚ, -((2 : ℚ) ^ 53) ≤ q → q ≤ 2 ^ 53 →
      ∃ n y, wrapUpFuel64 n (.fin q) = some y)
    ∧ (∀ n, wrapDownFuel64 n (.fin ((10 : ℚ) ^ 17)) = none)
    ∧ (∀ n, wrapDownFuel64 n .inf = none)
    ∧ (∀ n, wrapUpFuel64 n .ninf = none)
    ∧ (∀ n, wrapDownFuel64 n .nan = some .nan)
    ∧ (∀ n, wrapUpFuel64 n .nan = some .nan) := by
  refine ⟨?_, ?_, wrapDown64_stuck_1e17, ?_, ?_, ?_, ?_⟩
  · intro q h1 h2
    exact ⟨(⌈(q - TAU64 / 2) / 5⌉).toNat,
      wrapDown64_term (⌈(q - TAU64 / 2) / 5⌉).toNat q h1 h2 le_rfl⟩
  · intro q h1 h2
    exact ⟨(⌈(-TAU64 / 2 - q) / 5⌉).toNat,
      wrapUp64_term (⌈(-TAU64 / 2 - q) / 5⌉).toNat q h1 h2 le_rfl⟩
  · intro n
    induction n with
    | zero => rfl
    | succ n ih => simpa [wrapDownFuel64, PyFloat.lt, PyFloat.sub64] using ih
  · intro n
    induction n with
    | zero => rfl
    | succ n ih => simpa [wrapUpFuel64, PyFloat.lt, PyFloat.add64] using ih
  · intro n
    cases n <;> rfl
  · intro n
    cases n <;> rfl

theorem C10_wrap_termination_float64_witness :
    (-((2 : ℚ) ^ 53) ≤ (0 : ℚ) ∧ (0 : ℚ) ≤ 2 ^ 53)
    ∧ (∃ n y, wrapDownFuel64 n (.fin 0) = some y)
    ∧ (∃ n y, wrapUpFuel64 n (.fin 0) = some y) :=
  ⟨⟨by norm_num, by norm_num⟩,
    C10_wrap_termination_float64.1 0 (by norm_num) (by norm_num),
    C10_wrap_termination_float64.2.1 0 (by norm_num) (by norm_num)⟩

/-- C5: with the base established, read_pointer returns 0 when the raw
32-bit value read is 0, and the raw value minus 0x8000000 when it is
nonzero. -/
theorem C5_read_pointer_rebase (p : ProcessMemory) (b : Nat) (addr : Int)
    (v : Nat) (hb : p.base? = some b)
    (hv : (read_uint32 p addr).fst = .ok v) :
    (read_pointer p addr).fst
      = .ok (if v = 0 then (0 : Int) else (v : Int) - 0x8000000) := by
  unfold read_pointer
  rw [hb]
  rcases hm : read_uint32 p addr with ⟨r, t, p'⟩
  rw [hm] at hv
  simp only at hv
  subst hv
  by_cases h0 : v = 0 <;> simp [h0]

/-- Fixture for the C5 witness: a stream whose every 4-byte read yields the
little-endian bytes of 0x8000001. -/
def memC5 : MemFile :=
  ⟨fun _ _ => .ok [1, 0, 0, 8], fun _ _ => .ok (), fun _ _ => .ok ()⟩

/-- Fixture for the C5 witness: an attached process with base 4. -/
def procC5 : ProcessMemory := ⟨some memC5, true, some 4⟩

theorem C5_read_pointer_rebase_witness :
    (read_pointer procC5 0).fst
      = .ok (if 134217729 = 0 then (0 : Int) else (134217729 : Int) - 0x8000000) :=
  C5_read_pointer_rebase procC5 4 0 134217729 rfl rfl

/-- Fixture for C6: a stream whose reads return a single byte, fewer than
requested. -/
def memC6 : MemFile :=
  ⟨fun _ _ => .ok [5], fun _ _ => .ok (), fun _ _ => .ok ()⟩

/-- Fixture for C6: an attached process using that stream. -/
def procC6 : ProcessMemory := ⟨some memC6, true, none⟩

/-- C6 counterexample: a raw-memory read asked for 4 bytes can succeed with
a 1-byte result, which read_memory returns to the caller instead of
failing. -/
theorem C6_short_read_returned :
    (read_memory procC6 0 4).fst = .ok [5]
    ∧ ([5] : List Nat).length ≠ 4 := by
  exact ⟨rfl, by decide⟩

/-- C6 amended: read_memory raises only when the memory file is not open;
otherwise it returns exactly what the underlying stream read yields,
including results shorter than the requested count, which are passed to the
caller unchecked. -/
theorem C6_read_memory_passthrough (p : ProcessMemory) (f : MemFile)
    (addr : Int) (n : Nat) (h : p.mem_file = some f) :
    (read_memory p addr n).fst = f.readAt addr n
    ∧ ∀ q : ProcessMemory, q.mem_file = none →
        (read_memory q addr n).fst = .error .runtimeError := by
  constructor
  · simp only [read_memory, h]
    cases hr : f.readAt addr n <;> simp [hr]
  · intro q hq
    simp [read_memory, hq]

theorem C6_read_memory_passthrough_witness :
    (read_memory procC6 7 3).fst = memC6.readAt 7 3 :=
  (C6_read_memory_passthrough procC6 memC6 7 3 rfl).1

/-- C7: while the game memory base is not established, every typed accessor
and the injection engine is a no-op: the reads return 0 (0.0 for the float
read), no memory access is attempted, no exception is raised, and the
object state is unchanged (the reported message is a print). -/
theorem C7_absent_base_noop (p : ProcessMemory)
    (h : p.game_memory_base = none) :
    ∀ (addr : Int) (v : Nat) (x dx dy s : ℚ) (inv : Bool),
      read_uint32 p addr = (.ok 0, [], p)
      ∧ read_uint16 p addr = (.ok 0, [], p)
      ∧ read_pointer p addr = (.ok 0, [], p)
      ∧ read_float p addr = (.ok 0, [], p)
      ∧ write_uint16 p addr v = (.ok (), [], p)
      ∧ write_float p addr x = (.ok (), [], p)
      ∧ psp_mohh1_inject p dx dy s inv = (.ok (), [], p) := by
  intro addr v x dx dy s inv
  have hb : p.base? = none := by simp [ProcessMemory.base?, h]
  refine ⟨?_, ?_, ?_, ?_, ?_, ?_, ?_⟩ <;>
    simp [read_uint32, read_uint16, read_pointer, read_float, write_uint16,
      write_float, psp_mohh1_inject, hb]

theorem C7_absent_base_noop_witness :
    read_uint32 ⟨none, false, none⟩ 0 = (.ok 0, [], ⟨none, false, none⟩)
    ∧ read_uint16 ⟨none, false, none⟩ 0 = (.ok 0, [], ⟨none, false, none⟩)
    ∧ read_pointer ⟨none, false, none⟩ 0 = (.ok 0, [], ⟨none, false, none⟩)
    ∧ read_float ⟨none, false, none⟩ 0 = (.ok 0, [], ⟨none, false, none⟩)
    ∧ write_uint16 ⟨none, false, none⟩ 0 9 = (.ok (), [], ⟨none, false, none⟩)
    ∧ write_float ⟨none, false, none⟩ 0 1 = (.ok (), [], ⟨none, false, none⟩)
    ∧ psp_mohh1_inject ⟨none, false, none⟩ 3 4 50 false
        = (.ok (), [], ⟨none, false, none⟩) :=
  C7_absent_base_noop ⟨none, false, none⟩ rfl 0 9 1 3 4 50 false

/-- C8: an injection tick invoked with both deltas zero performs no memory
writes and leaves the object state unchanged — it aborts no later than the
zero-delta check. -/
theorem C8_zero_delta_no_writes (p : ProcessMemory) (s : ℚ) (inv : Bool) :
    writesOf (psp_mohh1_inject p 0 0 s inv).2.1 = []
    ∧ (psp_mohh1_inject p 0 0 s inv).2.2 = p := by
  refine ⟨?_, psp_mohh1_inject_state p 0 0 s inv⟩
  unfold psp_mohh1_inject
  split
  · rfl
  · split
    · rename_i e t1 p1 heq1
      exact (congrArg (fun r => writesOf r.2.1) heq1).symm.trans
        (read_pointer_writes _ _)
    · rename_i cam_base t1 p1 heq1
      have hw1 : writesOf t1 = [] :=
        (congrArg (fun r => writesOf r.2.1) heq1).symm.trans
          (read_pointer_writes _ _)
      split
      · exact hw1
      · split
        · rename_i e t2 p2 heq2
          have hw2 : writesOf t2 = [] :=
            (congrArg (fun r => writesOf r.2.1) heq2).symm.trans
              (read_float_writes _ _)
          show writesOf (t1 ++ t2) = []
          rw [writesOf_append, hw1, hw2]
          rfl
        · rename_i fov t2 p2 heq2
          have hw2 : writesOf t2 = [] :=
            (congrArg (fun r => writesOf r.2.1) heq2).symm.trans
              (read_float_writes _ _)
          rw [if_pos ⟨rfl, rfl⟩]
          show writesOf (t1 ++ t2) = []
          rw [writesOf_append, hw1, hw2]
          rfl

/-- C9: the established base is never modified by any failure path — region
discovery assigns the base exactly when it accepts a region and leaves the
state untouched when it returns not-found, and no typed read, write, pointer
dereference or injection tick (including failing or aborting ones) ever
reassigns it: each returns the object state unchanged. -/
theorem C9_base_stability :
    (∀ (p : ProcessMemory) (regions : List Region),
      ((find_game_memory p regions).fst = .ok none →
        (find_game_memory p regions).2.2 = p)
      ∧ ∀ a, (find_game_memory p regions).fst = .ok (some a) →
          (find_game_memory p regions).2.2.game_memory_base = some a)
    ∧ (∀ p a n, (read_memory p a n).2.2 = p)
    ∧ (∀ p a d, (write_memory p a d).2.2 = p)
    ∧ (∀ p a n, (read_int p a n).2.2 = p)
    ∧ (∀ p a, (read_uint32 p a).2.2 = p)
    ∧ (∀ p a, (read_uint16 p a).2.2 = p)
    ∧ (∀ p a, (read_float p a).2.2 = p)
    ∧ (∀ p a v, (write_uint16 p a v).2.2 = p)
    ∧ (∀ p a x, (write_float p a x).2.2 = p)
    ∧ (∀ p a, (read_pointer p a).2.2 = p)
    ∧ (∀ p dx dy s inv, (psp_mohh1_inject p dx dy s inv).2.2 = p) := by
  refine ⟨?_, read_memory_state, write_memory_state, read_int_state,
    read_uint32_state, read_uint16_state, read_float_state,
    write_uint16_state, write_float_state, read_pointer_state,
    psp_mohh1_inject_state⟩
  intro p regions
  unfold find_game_memory
  split
  · split
    · rename_i a t heq
      exact ⟨fun hc => absurd hc (by simp), fun a' ha' => by simpa using ha'⟩
    · exact ⟨fun _ => rfl, fun a' ha' => absurd ha' (by simp)⟩
  · exact ⟨fun _ => rfl, fun a' ha' => absurd ha' (by simp)⟩

theorem C9_base_stability_witness :
    (find_game_memory ⟨none, false, none⟩ []).2.2 = ⟨none, false, none⟩
    ∧ (read_memory ⟨none, false, none⟩ 0 4).2.2 = ⟨none, false, none⟩
    ∧ (psp_mohh1_inject ⟨none, false, none⟩ 1 2 50 true).2.2
        = ⟨none, false, none⟩ :=
  ⟨(C9_base_stability.1 ⟨none, false, none⟩ []).1 rfl,
    C9_base_stability.2.1 ⟨none, false, none⟩ 0 4,
    C9_base_stability.2.2.2.2.2.2.2.2.2.2 ⟨none, false, none⟩ 1 2 50 true⟩

/-- The source's size filter agrees with the claim's phrasing of it. -/
theorem sizeOk_eq_spec (s : Nat) :
    sizeOk s = (decide (1048576 ≤ s) &&
      decide (|((s : ℚ) - 33554432)| ≤ 33554432 / 10)) := by
  have key : (|((s : ℚ) - 33554432)| / 33554432 ≤ 0.1)
      ↔ (|((s : ℚ) - 33554432)| ≤ 33554432 / 10) := by
    rw [div_le_iff₀ (by norm_num : (0 : ℚ) < 33554432)]
    norm_num
  unfold sizeOk
  rw [decide_eq_decide.mpr key]

/-- The source's content probe agrees with the claim's phrasing of it: the
probed bytes are not all zero and the first two probed bytes are both
nonzero. -/
theorem acceptBytes_eq_spec (data : List Nat) :
    acceptBytes data
      = ((!(data.all fun b => b == 0) && data.headD 0 != 0) &&
          (data.drop 1).headD 0 != 0) := by
  match data with
  | [] => rfl
  | [b0] => by_cases h : b0 = 0 <;> simp [acceptBytes, h]
  | b0 :: b1 :: rest =>
    by_cases h0 : b0 = 0 <;> by_cases h1 : b1 = 0 <;>
      simp [acceptBytes, h0, h1, beq_eq_decide, bne]

/-- The per-candidate decision of the scan equals the claim-side predicate. -/
theorem specQualifies_eq (p : ProcessMemory) (r : Region) :
    specQualifies p r
      = (sizeOk r.size &&
          match (read_memory p (r.start : Int) 4).fst with
          | .ok data => acceptBytes data
          | .error _ => false) := by
  unfold specQualifies
  rw [sizeOk_eq_spec]
  cases (read_memory p (r.start : Int) 4).fst with
  | ok data => simp [acceptBytes_eq_spec]
  | error e => rfl

/-- The scan accepts exactly the first qualifying region. -/
theorem scanRegions_eq_find (p : ProcessMemory) (regions : List Region) :
    (scanRegions p regions).fst
      = (regions.find? (specQualifies p)).map Region.start := by
  induction regions with
  | nil => rfl
  | cons r rest ih =>
    cases hsz : sizeOk r.size with
    | false =>
      have hq : specQualifies p r = false := by simp [specQualifies_eq, hsz]
      rw [List.find?_cons_of_neg _ (by simp [hq])]
      simp only [scanRegions, hsz, Bool.false_eq_true, if_false]
      exact ih
    | true =>
      rcases hm : read_memory p (r.start : Int) 4 with ⟨res, t, p'⟩
      have hfst : (read_memory p (r.start : Int) 4).fst = res := by rw [hm]
      cases res with
      | error e =>
        have hq : specQualifies p r = false := by
          simp [specQualifies_eq, hfst]
        rw [List.find?_cons_of_neg _ (by simp [hq])]
        simp only [scanRegions, hsz, if_true, hm]
        rcases hrest : scanRegions p rest with ⟨o, t2⟩
        rw [hrest] at ih
        simpa [hrest] using ih
      | ok data =>
        cases hab : acceptBytes data with
        | true =>
          have hq : specQualifies p r = true := by
            simp [specQualifies_eq, hfst, hsz, hab]
          rw [List.find?_cons_of_pos _ (by simp [hq])]
          simp [scanRegions, hsz, hm, hab]
        | false =>
          have hq : specQualifies p r = false := by
            simp [specQualifies_eq, hfst, hsz, hab]
          rw [List.find?_cons_of_neg _ (by simp [hq])]
          simp only [scanRegions, hsz, if_true, hm, hab, Bool.false_eq_true,
            if_false]
          rcases hrest : scanRegions p rest with ⟨o, t2⟩
          rw [hrest] at ih
          simpa [hrest] using ih

/-- C4: over any parsed mapping table the scanner returns the start address
of the first region that is at least 1 MiB, within 10% of 32 MiB, and whose
probed first bytes are not all zero with the first two bytes both nonzero;
it establishes that address as the base, examines no later candidate (the
first qualifying region decides), and returns not-found — leaving the state
unchanged — when no region qualifies. -/
theorem C4_scanner_first_match (p : ProcessMemory) (regions : List Region)
    (h : p.maps_file = true) :
    (find_game_memory p regions).fst
      = .ok ((regions.find? (specQualifies p)).map Region.start)
    ∧ (∀ r, regions.find? (specQualifies p) = some r →
        (find_game_memory p regions).2.2.game_memory_base = some r.start)
    ∧ (regions.find? (specQualifies p) = none →
        (find_game_memory p regions).2.2 = p) := by
  have hs := scanRegions_eq_find p regions
  unfold find_game_memory
  rw [h]
  simp only [if_true]
  rcases hsc : scanRegions p regions with ⟨o, t⟩
  rw [hsc] at hs
  simp only at hs
  cases o with
  | none =>
    refine ⟨by rw [← hs], ?_, fun _ => rfl⟩
    intro r hr
    rw [hr] at hs
    exact absurd hs.symm (by simp)
  | some a =>
    refine ⟨by rw [← hs], ?_, ?_⟩
    · intro r hr
      rw [hr] at hs
      simpa using hs
    · intro hn
      rw [hn] at hs
      exact absurd hs (by simp)

/-- Fixture for the C4 witness: guest memory with a valid header at address
500000, an all-zero page at 4096, and failing reads elsewhere. -/
def memC4 : MemFile :=
  ⟨fun addr _ =>
    if addr = 4096 then .ok [0, 0, 0, 0]
    else if addr = 500000 then .ok [80, 83, 80, 0]
    else .error .osError,
   fun _ _ => .ok (), fun _ _ => .ok ()⟩

/-- Fixture for the C4 witness: the attached process before discovery. -/
def procC4 : ProcessMemory := ⟨some memC4, true, none⟩

/-- Fixture for the C4 witness: a small decoy, an all-zero 32 MiB decoy, and
the valid 32 MiB region. -/
def regionsC4 : List Region := [⟨0, 4096⟩, ⟨4096, 33554432⟩, ⟨500000, 33554432⟩]

theorem C4_scanner_first_match_witness :
    (find_game_memory procC4 regionsC4).fst = .ok (some 500000)
    ∧ (find_game_memory procC4 regionsC4).2.2.game_memory_base
        = some 500000 := by
  have h := C4_scanner_first_match procC4 regionsC4 rfl
  have h1 : specQualifies procC4 ⟨0, 4096⟩ = false := by
    norm_num [specQualifies, procC4, memC4, read_memory]
  have h2 : specQualifies procC4 ⟨4096, 33554432⟩ = false := by
    norm_num [specQualifies, procC4, memC4, read_memory]
  have h3 : specQualifies procC4 ⟨500000, 33554432⟩ = true := by
    norm_num [specQualifies, procC4, memC4, read_memory]
  have hfind : regionsC4.find? (specQualifies procC4)
      = some ⟨500000, 33554432⟩ := by
    rw [show regionsC4
        = [⟨0, 4096⟩, ⟨4096, 33554432⟩, ⟨500000, 33554432⟩] from rfl]
    rw [List.find?_cons_of_neg _ (by simp [h1]),
      List.find?_cons_of_neg _ (by simp [h2]),
      List.find?_cons_of_pos _ (by simp [h3])]
  exact ⟨by rw [h.1, hfind]; rfl, h.2.1 ⟨500000, 33554432⟩ hfind⟩

end MouseInjector
